import Mathlib

/-!
Verification development for the status-expression evaluator of the
gpkg_editor repository (source file status_expression.py).

The Python module is embedded shallowly:

* Python dynamic values (None / bool / int / float / str) become the closed
  inductive type `Value`.  Python `float` is modelled by `Rat` (exact
  rational arithmetic; IEEE-754 binary rounding, infinities, nan, exponent
  or underscore notation in `float()` string parsing are outside the model).
* Python character classification (`str.isspace`, `str.isdigit`,
  `str.isalpha`, `str.lower`) is modelled by its ASCII restriction.
* A raised Python exception is modelled by `Option.none` flowing through the
  `Option` monad; `evaluate_row_expr` catches it, mirroring the
  `try ... except Exception` of the source.
* The fused recursive-descent parser/evaluator of class `_Evaluator` is
  embedded as one non-recursive level per method, tied together by the
  fuel-indexed knot `parse_concat`; fuel only limits recursion depth and is
  chosen generously by `evalFuel` (Python recursion is unbounded; a Python
  `RecursionError` would be caught by the same top-level handler that the
  fuel-exhaustion `Option.none` feeds into).
-/

unseal Rat.ofScientific Rat.mul Rat.inv Rat.add Rat.sub

namespace StatusExpression

/-- Dynamic Python value flowing through the evaluator:
`None`, `bool`, `int`, `float` (as `Rat`), or `str`. -/
inductive Value where
  | absent
  | bool (b : Bool)
  | int (n : Int)
  | float (q : Rat)
  | str (s : String)
deriving Repr, DecidableEq

/-- A row: Python dict from column name to cell value (keys unique). -/
abbrev Row := List (String × Value)

/-- Token produced by `_tokenize` (a Python `(kind, value)` pair). -/
inductive Token where
  | NUM (v : Rat)
  | STR (s : String)
  | COL (s : String)
  | OP (s : String)
  | LPAREN
  | RPAREN
  | COMMA
  | IDENT (s : String)
deriving Repr, DecidableEq

/-- Decimal value of a list of ASCII digit characters. -/
def digitsToNat (cs : List Char) : Nat :=
  cs.foldl (fun a c => a * 10 + (c.toNat - 48)) 0

/-- Strip ASCII whitespace from both ends (model of Python `str.strip()`
performed by `float()` on string input). -/
def stripWs (cs : List Char) : List Char :=
  ((cs.dropWhile Char.isWhitespace).reverse.dropWhile Char.isWhitespace).reverse

/-- Unsigned part of Python `float(string)`: digits, optionally one decimal
point; at least one digit overall; anything else fails (`ValueError`). -/
def parseUnsigned (cs : List Char) : Option Rat :=
  let ip := cs.takeWhile Char.isDigit
  let rest := cs.dropWhile Char.isDigit
  match rest with
  | [] => if ip.isEmpty then Option.none else some ((digitsToNat ip : Nat) : Rat)
  | '.' :: fp =>
      if fp.all Char.isDigit && (!ip.isEmpty || !fp.isEmpty) then
        some ((digitsToNat ip : Nat) + ((digitsToNat fp : Nat) : Rat) / ((10 : Rat) ^ fp.length))
      else Option.none
  | _ => Option.none

/-- Model of Python `float(string)`: optional surrounding whitespace,
optional sign, then an unsigned decimal literal.  `Option.none` models a
raised `ValueError`. -/
def parsePyFloat (s : String) : Option Rat :=
  match stripWs s.toList with
  | [] => Option.none
  | c :: cs =>
    let body := if c = '-' || c = '+' then cs else c :: cs
    match parseUnsigned body with
    | some q => some (if c = '-' then -q else q)
    | Option.none => Option.none

/-- Model of Python `float(value)` on a dynamic value.  `Option.none`
models a raised `TypeError` (for `None`) or `ValueError` (bad string). -/
def pyFloat? : Value → Option Rat
  | Value.absent => Option.none
  | Value.bool b => some (if b then 1 else 0)
  | Value.int n => some (n : Rat)
  | Value.float q => some q
  | Value.str s => parsePyFloat s

/-- Fractional decimal digits of `r / d` (`r < d`), up to `fuel` digits. -/
def fracDigits : Nat → Nat → Nat → List Char
  | 0, _, _ => []
  | _ + 1, 0, _ => []
  | fuel + 1, r, d =>
      Char.ofNat (48 + r * 10 / d) :: fracDigits fuel (r * 10 % d) d

/-- Model of Python `str()` on a float: integral values render with a
trailing `.0`; otherwise sign, integer part, point, fraction digits.
(For the non-terminating expansions that exact rationals allow but binary
floats do not, the expansion is cut after 25 digits.) -/
def floatStr (q : Rat) : String :=
  let sign := if q.num < 0 then "-" else ""
  let n := q.num.natAbs
  let ip := n / q.den
  let r := n % q.den
  if r = 0 then sign ++ toString ip ++ ".0"
  else sign ++ toString ip ++ "." ++ String.mk (fracDigits 25 r q.den)

/-- Model of Python `str(value)` on a dynamic value. -/
def pyStr : Value → String
  | Value.absent => "None"
  | Value.bool b => if b then "True" else "False"
  | Value.int n => toString n
  | Value.float q => floatStr q
  | Value.str s => s

/-- Source `_to_str`: empty string for `None`, integral floats render
without the trailing `.0`, everything else via `str()`. -/
def _to_str : Value → String
  | Value.absent => ""
  | Value.float q => if q.den = 1 then toString q.num else floatStr q
  | v => pyStr v

/-- Source `_format`: like `_to_str` (booleans rendered literally). -/
def _format : Value → String
  | Value.absent => ""
  | Value.bool b => if b then "True" else "False"
  | Value.float q => if q.den = 1 then toString q.num else floatStr q
  | Value.int n => toString n
  | Value.str s => s

/-- Source `_compare`: numeric comparison when both sides coerce via
`float()` (bools count as numbers, as in Python), else lexicographic
comparison of the `_to_str` renderings; unknown operator gives `False`. -/
def _compare (left : Value) (op : String) (right : Value) : Bool :=
  match pyFloat? left, pyFloat? right with
  | some lf, some rf =>
      if op = "=" then decide (lf = rf)
      else if op = "!=" then decide (lf ≠ rf)
      else if op = ">" then decide (rf < lf)
      else if op = "<" then decide (lf < rf)
      else if op = ">=" then decide (rf ≤ lf)
      else if op = "<=" then decide (lf ≤ rf)
      else false
  | _, _ =>
      let ls := _to_str left
      let rs := _to_str right
      if op = "=" then decide (ls = rs)
      else if op = "!=" then decide (ls ≠ rs)
      else if op = ">" then decide (rs < ls)
      else if op = "<" then decide (ls < rs)
      else if op = ">=" then decide (rs ≤ ls)
      else if op = "<=" then decide (ls ≤ rs)
      else false

/-- Source `_is_truthy`: `None` false, bool itself, numbers nonzero,
text non-empty. -/
def _is_truthy : Value → Bool
  | Value.absent => false
  | Value.bool b => b
  | Value.int n => decide (n ≠ 0)
  | Value.float q => decide (q ≠ 0)
  | Value.str s => decide (s ≠ "")

/-- ASCII model of Python `str.lower()` (used on function names). -/
def pyLower (s : String) : String :=
  String.mk (s.toList.map fun c =>
    if 'A' ≤ c && c ≤ 'Z' then Char.ofNat (c.toNat + 32) else c)

/-- Python `round(q)` / the tie rule of `round`: banker's rounding
(round half to even). -/
def bankersRound (q : Rat) : Int :=
  let f := q.floor
  let r := q - (f : Rat)
  if r < 1 / 2 then f
  else if 1 / 2 < r then f + 1
  else if f % 2 = 0 then f else f + 1

/-- Python `int()` on a float: truncation toward zero. -/
def ratTrunc (q : Rat) : Int :=
  if 0 ≤ q then q.floor else -((-q).floor)

/-- `10 ^ n` for a possibly negative exponent. -/
def pow10 (n : Int) : Rat :=
  if 0 ≤ n then (10 : Rat) ^ n.toNat else ((10 : Rat) ^ (-n).toNat)⁻¹

/-- Python `round(q, n)` with explicit digit count (exact decimal
half-to-even rounding; the binary-float inexactness of CPython is outside
the model). -/
def pyRound (q : Rat) (n : Int) : Rat :=
  let m := pow10 n
  ((bankersRound (q * m) : Int) : Rat) / m

/-! ## Tokenizer (source `_tokenize`) -/

/-- Number start: a digit, or a dot directly followed by a digit. -/
def isNumStart (c : Char) (rest : List Char) : Bool :=
  c.isDigit || (c = '.' && (match rest with
    | c2 :: _ => c2.isDigit
    | [] => false))

/-- Characters making up a numeric run: digits and dots. -/
def isNumChar (c : Char) : Bool :=
  c.isDigit || c = '.'

/-- Two-character operator at the current position (`expr[i:i+2]` check of
the source); a one-character tail never matches. -/
def twoOpOf (c : Char) (rest : List Char) : Option String :=
  match rest with
  | c2 :: _ =>
      if (c = '|' && c2 = '|') || (c = '!' && c2 = '=')
          || (c = '>' && c2 = '=') || (c = '<' && c2 = '=') then
        some (String.mk [c, c2])
      else Option.none
  | [] => Option.none

/-- One-character operator characters. -/
def isOneOp (c : Char) : Bool :=
  c = '=' || c = '>' || c = '<' || c = '+' || c = '-' || c = '*' || c = '/'

/-- Identifier start: letter or underscore (ASCII model of `isalpha`). -/
def isIdentStart (c : Char) : Bool :=
  c.isAlpha || c = '_'

/-- Identifier continuation: letter, digit, or underscore. -/
def isIdentChar (c : Char) : Bool :=
  c.isAlphanum || c = '_'

/-- The scanning loop of `_tokenize`.  Each step consumes at least one
character, so fuel `length + 1` never runs out (exhaustion yields
`Option.none`, which is unreachable from `_tokenize`).  `Option.none`
models the `ValueError` raised by `float()` on a malformed numeric run. -/
def tokLoop : Nat → List Char → Option (List Token)
  | _, [] => some []
  | 0, _ :: _ => Option.none
  | fuel + 1, c :: cs =>
    if c.isWhitespace then tokLoop fuel cs
    else if c = '\'' then
      let content := cs.takeWhile fun x => x ≠ '\''
      let rest := (cs.dropWhile fun x => x ≠ '\'').drop 1
      (tokLoop fuel rest).map fun ts => Token.STR (String.mk content) :: ts
    else if c = '"' then
      let content := cs.takeWhile fun x => x ≠ '"'
      let rest := (cs.dropWhile fun x => x ≠ '"').drop 1
      (tokLoop fuel rest).map fun ts => Token.COL (String.mk content) :: ts
    else if isNumStart c cs then
      let run := (c :: cs).takeWhile isNumChar
      let rest := (c :: cs).dropWhile isNumChar
      match parsePyFloat (String.mk run) with
      | some v => (tokLoop fuel rest).map fun ts => Token.NUM v :: ts
      | Option.none => Option.none
    else
      match twoOpOf c cs with
      | some op => (tokLoop fuel (cs.drop 1)).map fun ts => Token.OP op :: ts
      | Option.none =>
        if isOneOp c then
          (tokLoop fuel cs).map fun ts => Token.OP (String.mk [c]) :: ts
        else if c = '(' then (tokLoop fuel cs).map fun ts => Token.LPAREN :: ts
        else if c = ')' then (tokLoop fuel cs).map fun ts => Token.RPAREN :: ts
        else if c = ',' then (tokLoop fuel cs).map fun ts => Token.COMMA :: ts
        else if isIdentStart c then
          let run := (c :: cs).takeWhile isIdentChar
          let rest := (c :: cs).dropWhile isIdentChar
          (tokLoop fuel rest).map fun ts => Token.IDENT (String.mk run) :: ts
        else tokLoop fuel cs

/-- Source `_tokenize`.  `Option.none` models a raised exception. -/
def _tokenize (expr : String) : Option (List Token) :=
  tokLoop (expr.toList.length + 1) expr.toList

/-! ## Evaluator (source class `_Evaluator`) -/

/-- Cursor state of one `_Evaluator` instance: its token list and `pos`. -/
structure EvSt where
  tokens : List Token
  pos : Nat
deriving Repr, DecidableEq

/-- Source `_peek`. -/
def peek (st : EvSt) : Option Token :=
  st.tokens.get? st.pos

/-- Cursor advance (the position effect of source `_consume`; every source
call site reads the token through `_peek` first). -/
def advance (st : EvSt) : EvSt :=
  { st with pos := st.pos + 1 }

/-- The optional-comma consumption step used by `_parse_if`/`_parse_round`. -/
def skipComma (st : EvSt) : EvSt :=
  match peek st with
  | some Token.COMMA => advance st
  | _ => st

/-- The optional-closing-parenthesis consumption step. -/
def skipRParen (st : EvSt) : EvSt :=
  match peek st with
  | some Token.RPAREN => advance st
  | _ => st

/-- Source `_collect_arg_tokens` scan over the remaining tokens: returns
the argument span (up to the parenthesis matching depth 1) and whether the
closing parenthesis was found (it is then consumed by the caller). -/
def collect_args : Nat → List Token → List Token × Bool
  | _, [] => ([], false)
  | depth, tok :: ts =>
    match tok with
    | Token.LPAREN =>
        let (a, c) := collect_args (depth + 1) ts
        (Token.LPAREN :: a, c)
    | Token.RPAREN =>
        if depth = 1 then ([], true)
        else
          let (a, c) := collect_args (depth - 1) ts
          (Token.RPAREN :: a, c)
    | _ =>
        let (a, c) := collect_args depth ts
        (tok :: a, c)

/-- Source `_collect_arg_tokens`: argument tokens plus the state after. -/
def collect_arg_tokens (st : EvSt) : List Token × EvSt :=
  let (a, closed) := collect_args 1 (st.tokens.drop st.pos)
  (a, ⟨st.tokens, st.pos + a.length + (if closed then 1 else 0)⟩)

/-- Source `_skip_to_rparen`: same scan, dropping the tokens. -/
def skip_to_rparen (st : EvSt) : EvSt :=
  let (a, closed) := collect_args 1 (st.tokens.drop st.pos)
  ⟨st.tokens, st.pos + a.length + (if closed then 1 else 0)⟩

/-- Column lookup: Python `row.get(name)` (missing key gives `None`). -/
def colGet (r : Row) (name : String) : Value :=
  match List.lookup name r with
  | some v => v
  | Option.none => Value.absent

/-- One step of the `_parse_add` loop body: coerce both sides with
`float()`; on failure the running value becomes `None`. -/
def addStep (left : Value) (op : String) (right : Value) : Value :=
  match pyFloat? left, pyFloat? right with
  | some lf, some rf => Value.float (if op = "+" then lf + rf else lf - rf)
  | _, _ => Value.absent

/-- One step of the `_parse_mul` loop body: multiplication, or division
with the explicit division-by-zero guard yielding `None`. -/
def mulStep (left : Value) (op : String) (right : Value) : Value :=
  match pyFloat? left, pyFloat? right with
  | some lf, some rf =>
      if op = "*" then Value.float (lf * rf)
      else if rf = 0 then Value.absent
      else Value.float (lf / rf)
  | _, _ => Value.absent

/-- The result of `_parse_round` once its operands are evaluated:
`float()`-coerce the value (failure gives `None`); no or empty digit count
rounds to an `int`, otherwise round to `int(float(ndigits))` digits
(coercion failure falls back to the digitless rounding). -/
def roundResult (value : Value) (ndigits : Option Value) : Value :=
  match pyFloat? value with
  | Option.none => Value.absent
  | some num =>
    match ndigits with
    | Option.none => Value.int (bankersRound num)
    | some nd =>
      if nd = Value.str "" then Value.int (bankersRound num)
      else
        match pyFloat? nd with
        | some q => Value.float (pyRound num (ratTrunc q))
        | Option.none => Value.int (bankersRound num)

/-- Python `set.add` modelled on a duplicate-free list. -/
def setAdd (acc : List String) (s : String) : List String :=
  if s ∈ acc then acc else acc ++ [s]

/-- The `nums` list built by the `min`/`max` branch of `_parse_aggregate`:
keep rows that are not `None` and whose `str()` rendering is non-empty;
each kept value is a float when it coerces, else its `str()` text. -/
def aggKeep (results : List Value) : List (Rat ⊕ String) :=
  results.filterMap fun v =>
    if v = Value.absent ∨ pyStr v = "" then Option.none
    else
      match pyFloat? v with
      | some q => some (Sum.inl q)
      | Option.none => some (Sum.inr (pyStr v))

/-- Python `<` on the heterogeneous `nums` elements: comparing a float
with a str raises `TypeError` (`Option.none`). -/
def pyCmpLt : Rat ⊕ String → Rat ⊕ String → Option Bool
  | Sum.inl a, Sum.inl b => some (decide (a < b))
  | Sum.inr a, Sum.inr b => some (decide (a < b))
  | _, _ => Option.none

/-- Python `min(nums)` / `max(nums)`: left fold keeping the strictly
better element, raising (`Option.none`) on a float/str comparison;
the empty list is never reached from `_parse_aggregate`. -/
def pyExtreme (useMin : Bool) : List (Rat ⊕ String) → Option (Rat ⊕ String)
  | [] => Option.none
  | x :: xs =>
      xs.foldlM (fun acc b =>
        (if useMin then pyCmpLt b acc else pyCmpLt acc b).map
          fun lt => if lt then b else acc) x

/-- The combining step of `_parse_aggregate` (source lines applying the
function name to the per-row `results` list).  `Option.none` models the
`TypeError` a mixed-type `min`/`max` raises; a returned `None` is
`some Value.absent`. -/
def aggCombine (name : String) (results : List Value) : Option Value :=
  if name = "count" then
    some (Value.int (results.foldl (fun a v => if _is_truthy v then a + 1 else a) 0))
  else if name = "sum" then
    some (Value.float (results.foldl (fun t v =>
      match pyFloat? v with
      | some q => t + q
      | Option.none => t) 0))
  else if name = "min" ∨ name = "max" then
    let nums := aggKeep results
    if nums = [] then some Value.absent
    else
      match pyExtreme (name == "min") nums with
      | some (Sum.inl q) => some (Value.float q)
      | some (Sum.inr s) => some (Value.str s)
      | Option.none => Option.none
  else if name = "unique" then
    some (Value.int ((results.foldl (fun acc v =>
      if v ≠ Value.absent ∧ pyStr v ≠ "" then setAdd acc (pyStr v) else acc) []).length))
  else some Value.absent

/-- Type of the recursive-descent knot: `parse_concat` of a fresh or the
current evaluator, parameterized by its table and row context. -/
abbrev PC := List Row → Option Row → EvSt → Option (Value × EvSt)

/-- Source `_parse_if`: three comma-separated sub-expressions, optional
closing parenthesis, branch chosen by `_is_truthy` on the condition. -/
def parse_if (pc : PC) (data : List Row) (row : Option Row) (st : EvSt) :
    Option (Value × EvSt) := do
  let (cond, st1) ← pc data row st
  let (tv, st2) ← pc data row (skipComma st1)
  let (fv, st3) ← pc data row (skipComma st2)
  pure (if _is_truthy cond then tv else fv, skipRParen st3)

/-- Source `_parse_round`. -/
def parse_round (pc : PC) (data : List Row) (row : Option Row) (st : EvSt) :
    Option (Value × EvSt) := do
  let (value, st1) ← pc data row st
  match peek st1 with
  | some Token.COMMA => do
      let (nd, st2) ← pc data row (advance st1)
      pure (roundResult value (some nd), skipRParen st2)
  | _ => pure (roundResult value Option.none, skipRParen st1)

/-- Source `_parse_aggregate`: a bare closing parenthesis is the
zero-argument form (`count()` gives the table row count, others `None`);
otherwise the argument span is captured once and re-evaluated by a fresh
evaluator per table row, then combined by `aggCombine`. -/
def parse_aggregate (pc : PC) (data : List Row) (name : String) (st : EvSt) :
    Option (Value × EvSt) :=
  match peek st with
  | some Token.RPAREN =>
      some ((if name = "count" then Value.int data.length else Value.absent), advance st)
  | _ =>
    let (argToks, st2) := collect_arg_tokens st
    do
      let results ← data.mapM fun r => (pc data (some r) ⟨argToks, 0⟩).map Prod.fst
      let v ← aggCombine name results
      pure (v, st2)

/-- Source `_parse_function` dispatch on the lowercased name. -/
def parse_function (pc : PC) (data : List Row) (row : Option Row)
    (name : String) (st : EvSt) : Option (Value × EvSt) :=
  if name = "if" then parse_if pc data row st
  else if name = "round" then parse_round pc data row st
  else if name = "count" ∨ name = "sum" ∨ name = "min" ∨ name = "max" ∨ name = "unique" then
    parse_aggregate pc data name st
  else some (Value.absent, skip_to_rparen st)

/-- Source `_parse_primary`. -/
def primary_level (pc : PC) : PC := fun data row st =>
  match peek st with
  | Option.none => some (Value.absent, st)
  | some (Token.NUM v) => some (Value.float v, advance st)
  | some (Token.STR s) => some (Value.str s, advance st)
  | some (Token.COL s) =>
      (match row with
       | some r => some (colGet r s, advance st)
       | Option.none => some (Value.absent, advance st))
  | some (Token.IDENT name) =>
      let st1 := advance st
      (match peek st1 with
       | some Token.LPAREN => parse_function pc data row (pyLower name) (advance st1)
       | _ => some (Value.absent, st1))
  | some Token.LPAREN => do
      let (v, st1) ← pc data row (advance st)
      pure (v, skipRParen st1)
  | some _ => some (Value.absent, advance st)

/-- Source `_parse_unary`: self-recursion on leading minus signs; each
sign consumes a token, so fuel `tokens.length + 1` never runs out. -/
def unary_loop (pc : PC) (data : List Row) (row : Option Row) :
    Nat → EvSt → Option (Value × EvSt)
  | 0, _ => Option.none
  | fuel + 1, st =>
    match peek st with
    | some (Token.OP ("-")) => do
        let (v, st1) ← unary_loop pc data row fuel (advance st)
        pure ((match pyFloat? v with
               | some q => Value.float (-q)
               | Option.none => Value.absent), st1)
    | _ => primary_level pc data row st

/-- `_parse_unary` entry with its token-count fuel. -/
def unary_level (pc : PC) : PC := fun data row st =>
  unary_loop pc data row (st.tokens.length + 1) st

/-- The `while` loop of `_parse_mul`; each iteration consumes the operator
token, so fuel `tokens.length + 1` never runs out. -/
def mul_loop (pc : PC) (data : List Row) (row : Option Row) :
    Nat → Value → EvSt → Option (Value × EvSt)
  | 0, _, _ => Option.none
  | fuel + 1, left, st =>
    match peek st with
    | some (Token.OP op) =>
        if op = "*" ∨ op = "/" then do
          let (right, st1) ← unary_level pc data row (advance st)
          mul_loop pc data row fuel (mulStep left op right) st1
        else some (left, st)
    | _ => some (left, st)

/-- Source `_parse_mul`. -/
def mul_level (pc : PC) : PC := fun data row st => do
  let (left, st1) ← unary_level pc data row st
  mul_loop pc data row (st1.tokens.length + 1) left st1

/-- The `while` loop of `_parse_add`. -/
def add_loop (pc : PC) (data : List Row) (row : Option Row) :
    Nat → Value → EvSt → Option (Value × EvSt)
  | 0, _, _ => Option.none
  | fuel + 1, left, st =>
    match peek st with
    | some (Token.OP op) =>
        if op = "+" ∨ op = "-" then do
          let (right, st1) ← mul_level pc data row (advance st)
          add_loop pc data row fuel (addStep left op right) st1
        else some (left, st)
    | _ => some (left, st)

/-- Source `_parse_add`. -/
def add_level (pc : PC) : PC := fun data row st => do
  let (left, st1) ← mul_level pc data row st
  add_loop pc data row (st1.tokens.length + 1) left st1

/-- Source `_parse_compare`: at most one comparison at this level. -/
def compare_level (pc : PC) : PC := fun data row st => do
  let (left, st1) ← add_level pc data row st
  match peek st1 with
  | some (Token.OP op) =>
      if op = "=" ∨ op = "!=" ∨ op = ">" ∨ op = "<" ∨ op = ">=" ∨ op = "<=" then do
        let (right, st2) ← add_level pc data row (advance st1)
        pure (Value.bool (_compare left op right), st2)
      else pure (left, st1)
  | _ => pure (left, st1)

/-- The `while` loop of `parse_concat` (string concatenation). -/
def concat_loop (pc : PC) (data : List Row) (row : Option Row) :
    Nat → Value → EvSt → Option (Value × EvSt)
  | 0, _, _ => Option.none
  | fuel + 1, left, st =>
    match peek st with
    | some (Token.OP ("||")) => do
        let (right, st1) ← compare_level pc data row (advance st)
        concat_loop pc data row fuel (Value.str (_to_str left ++ _to_str right)) st1
    | _ => some (left, st)

/-- Source `parse_concat` body (one level below the recursion knot). -/
def concat_level (pc : PC) : PC := fun data row st => do
  let (left, st1) ← compare_level pc data row st
  concat_loop pc data row (st1.tokens.length + 1) left st1

/-- The recursion knot: source `parse_concat`, the entry production of the
fused parser/evaluator.  Fuel bounds the recursion depth of the embedding
only (Python recursion is unbounded). -/
def parse_concat : Nat → List Row → Option Row → EvSt → Option (Value × EvSt)
  | 0, _, _, _ => Option.none
  | fuel + 1, data, row, st => concat_level (parse_concat fuel) data row st

/-- Generous fuel for a token list (recursion depth of the source on such
input never exceeds it for the inputs treated here). -/
def evalFuel (tokens : List Token) : Nat :=
  8 * tokens.length + 16

/-- The body of the `try` block of `evaluate_row_expr`:
tokenize, evaluate, format.  `Option.none` is a raised exception. -/
def tryEval (e : String) (row : Row) (data : List Row) : Option String := do
  let tokens ← _tokenize e
  let (v, _) ← parse_concat (evalFuel tokens) data (some row) ⟨tokens, 0⟩
  pure (_format v)

/-- The newline normalization of `evaluate_row_expr`:
`expr.replace(chr(10), chr(32)).replace(chr(13), str())` — newline to
space, carriage return removed (single-character replace modelled
characterwise). -/
def normalizeExpr (expr : String) : String :=
  String.mk (expr.toList.filterMap fun c =>
    if c = '\n' then some ' '
    else if c = '\r' then Option.none
    else some c)

/-- Source `evaluate_row_expr`: the public entry point.  The empty
expression short-circuits to the empty string; otherwise any exception in
tokenization or evaluation falls back to the (normalized) expression. -/
def evaluate_row_expr (expr : String) (row : Row) (data : List Row) : String :=
  if expr = "" then ""
  else
    let e := normalizeExpr expr
    match tryEval e row data with
    | some s => s
    | Option.none => e

/-! ## Helper lemmas -/

theorem foldl_count_truthy (l : List Value) :
    ∀ a : Int, l.foldl (fun a v => if _is_truthy v then a + 1 else a) a
      = a + l.countP _is_truthy := by
  induction l with
  | nil => intro a; simp
  | cons v tl ih =>
      intro a
      by_cases h : _is_truthy v <;>
        simp [List.foldl_cons, h, ih, List.countP_cons] <;> push_cast <;> ring

theorem foldl_sum_coerce (l : List Value) :
    ∀ a : Rat, l.foldl (fun t v =>
        match pyFloat? v with
        | some q => t + q
        | Option.none => t) a
      = a + (l.map fun v => (pyFloat? v).getD 0).sum := by
  induction l with
  | nil => intro a; simp
  | cons v tl ih =>
      intro a
      cases h : pyFloat? v <;> simp [List.foldl_cons, h, ih] <;> ring

theorem filterMap_norm_id (cs : List Char) (h : ∀ c ∈ cs, c ≠ '\n' ∧ c ≠ '\r') :
    cs.filterMap (fun c =>
      if c = '\n' then some ' '
      else if c = '\r' then Option.none
      else some c) = cs := by
  induction cs with
  | nil => rfl
  | cons c tl ih =>
      obtain ⟨h1, h2⟩ := h c (List.mem_cons_self c tl)
      simp only [List.filterMap_cons, h1, h2, if_false,
        ih fun x hx => h x (List.mem_cons_of_mem c hx)]

theorem normalizeExpr_id (expr : String) (h : ∀ c ∈ expr.toList, c ≠ '\n' ∧ c ≠ '\r') :
    normalizeExpr expr = expr := by
  unfold normalizeExpr
  rw [filterMap_norm_id expr.toList h]
  cases expr
  rfl

/-! ## Claim theorems -/

/-- Claim C1: the public entry point `evaluate_row_expr` never lets an
exception reach its caller and always returns a string: either the
expression is empty (empty string), or the `try` body succeeds and its
string is returned, or the exception channel fires and the caught
exception resolves to the normalized expression string. -/
theorem evaluate_row_expr_total_cases (expr : String) (r : Row) (T : List Row) :
    (expr = "" ∧ evaluate_row_expr expr r T = "")
    ∨ (∃ s, tryEval (normalizeExpr expr) r T = some s ∧ evaluate_row_expr expr r T = s)
    ∨ (tryEval (normalizeExpr expr) r T = Option.none
        ∧ evaluate_row_expr expr r T = normalizeExpr expr) := by
  by_cases h : expr = ""
  · exact Or.inl ⟨h, by simp [evaluate_row_expr, h]⟩
  · cases he : tryEval (normalizeExpr expr) r T with
    | none => exact Or.inr (Or.inr ⟨rfl, by simp [evaluate_row_expr, h, he]⟩)
    | some s => exact Or.inr (Or.inl ⟨s, rfl, by simp [evaluate_row_expr, h, he]⟩)

/-- Claim C2 counterexample: on the input made of the characters
`1.2.3` followed by a newline, tokenization raises (multi-dot numeric
literal), and the fallback is NOT character-for-character the original
expression: the newline was already replaced by a space before the `try`
block, so the fallback returns the normalized text instead. -/
theorem evaluate_row_expr_fallback_not_verbatim :
    tryEval (normalizeExpr ("1.2.3\n")) [] [] = Option.none
    ∧ evaluate_row_expr ("1.2.3\n") [] [] = "1.2.3 "
    ∧ evaluate_row_expr ("1.2.3\n") [] [] ≠ "1.2.3\n" := by
  refine ⟨by decide, by decide, by decide⟩

/-- Claim C2 (amended): whenever tokenization or evaluation raises, the
call returns the newline-normalized expression (newlines replaced by
spaces, carriage returns removed); this is the original expression
verbatim exactly when the expression contains no newline and no carriage
return. -/
theorem evaluate_row_expr_fallback_normalized (expr : String) (r : Row) (T : List Row)
    (hne : expr ≠ "")
    (hfail : tryEval (normalizeExpr expr) r T = Option.none) :
    evaluate_row_expr expr r T = normalizeExpr expr
    ∧ ((∀ c ∈ expr.toList, c ≠ '\n' ∧ c ≠ '\r') → evaluate_row_expr expr r T = expr) := by
  have hmain : evaluate_row_expr expr r T = normalizeExpr expr := by
    simp [evaluate_row_expr, hne, hfail]
  exact ⟨hmain, fun hclean => by rw [hmain, normalizeExpr_id expr hclean]⟩

/-- Witness for the amended Claim C2 theorem: a newline-free failing
input is returned verbatim. -/
theorem evaluate_row_expr_fallback_normalized_witness :
    evaluate_row_expr ("1.2.3") [] [] = "1.2.3" :=
  (evaluate_row_expr_fallback_normalized ("1.2.3") [] [] (by decide) (by decide)).2 (by decide)

/-- Claim C3 counterexample: the tokenizer does NOT terminate without
exception on every input: on `1.2.3` the numeric run contains two decimal
points and the `float()` conversion raises `ValueError` (modelled by
`Option.none`). -/
theorem tokenize_multidot_raises : _tokenize ("1.2.3") = Option.none := by decide

/-- Claim C4: `count()` evaluates to the row count of the table (for every
row and table); `count(E)` combines the per-row results by counting the
truthy ones; `sum(E)` combines them by summing the `float()`-coercible
ones with non-coercible rows contributing 0; and the two concrete examples
of the spec hold. -/
theorem aggregate_count_sum_spec :
    (∀ (r : Row) (T : List Row),
        evaluate_row_expr ("count()") r T = _format (Value.int T.length))
    ∧ (∀ results : List Value,
        aggCombine ("count") results = some (Value.int (results.countP _is_truthy)))
    ∧ (∀ results : List Value,
        aggCombine ("sum") results
          = some (Value.float ((results.map fun v => (pyFloat? v).getD 0).sum)))
    ∧ evaluate_row_expr ("sum(\"v\")") []
        [[("v", Value.int 1)], [("v", Value.int 2)], [("v", Value.int 3)]] = "6"
    ∧ evaluate_row_expr ("count()") []
        [[("v", Value.int 1)], [("v", Value.int 2)], [("v", Value.int 3)]] = "3" := by
  refine ⟨fun r T => rfl, fun results => ?_, fun results => ?_, by decide, by decide⟩
  · simp [aggCombine, foldl_count_truthy]
  · simp [aggCombine, foldl_sum_coerce]

/-- Claim C6: `if(c, A, B)` returns the evaluated `A` when `c` is truthy
and the evaluated `B` otherwise (both argument spans are parsed, one
result is returned); truthiness is: absent false, a boolean itself, a
number nonzero, text non-empty; and the spec's concrete example holds. -/
theorem if_truthiness_spec :
    (_is_truthy Value.absent = false)
    ∧ (∀ b, _is_truthy (Value.bool b) = b)
    ∧ (∀ n : Int, (_is_truthy (Value.int n) = true ↔ n ≠ 0))
    ∧ (∀ q : Rat, (_is_truthy (Value.float q) = true ↔ q ≠ 0))
    ∧ (∀ s : String, (_is_truthy (Value.str s) = true ↔ s ≠ ""))
    ∧ (∀ (pc : PC) (data : List Row) (row : Option Row) (st st1 st2 st3 : EvSt)
        (cond tv fv : Value),
        pc data row st = some (cond, st1) →
        pc data row (skipComma st1) = some (tv, st2) →
        pc data row (skipComma st2) = some (fv, st3) →
        parse_if pc data row st
          = some ((if _is_truthy cond then tv else fv), skipRParen st3))
    ∧ evaluate_row_expr ("if(\"x\" > 3, 'big', 'small')") [("x", Value.int 5)] [] = "big" := by
  refine ⟨rfl, fun b => rfl, fun n => by simp [_is_truthy], fun q => by simp [_is_truthy],
    fun s => by simp [_is_truthy], ?_, by decide⟩
  intro pc data row st st1 st2 st3 cond tv fv h1 h2 h3
  simp [parse_if, h1, h2, h3]

/-- Witness for the Claim C6 theorem: the general `parse_if` equation
applied at a concrete token stream. -/
theorem if_truthiness_spec_witness :
    parse_if (parse_concat 10) [] Option.none
        ⟨[Token.STR ("y"), Token.COMMA, Token.STR ("a"), Token.COMMA,
          Token.STR ("b"), Token.RPAREN], 0⟩
      = some (Value.str ("a"),
          skipRParen ⟨[Token.STR ("y"), Token.COMMA, Token.STR ("a"), Token.COMMA,
            Token.STR ("b"), Token.RPAREN], 5⟩) := by
  have h := if_truthiness_spec.2.2.2.2.2.1 (parse_concat 10) [] Option.none
    ⟨[Token.STR ("y"), Token.COMMA, Token.STR ("a"), Token.COMMA,
      Token.STR ("b"), Token.RPAREN], 0⟩
    ⟨[Token.STR ("y"), Token.COMMA, Token.STR ("a"), Token.COMMA,
      Token.STR ("b"), Token.RPAREN], 1⟩
    ⟨[Token.STR ("y"), Token.COMMA, Token.STR ("a"), Token.COMMA,
      Token.STR ("b"), Token.RPAREN], 3⟩
    ⟨[Token.STR ("y"), Token.COMMA, Token.STR ("a"), Token.COMMA,
      Token.STR ("b"), Token.RPAREN], 5⟩
    (Value.str ("y")) (Value.str ("a")) (Value.str ("b"))
    (by decide) (by decide) (by decide)
  simpa using h

/-- Claim C7: division by a right operand that numerically coerces to zero
yields absent (`None`), never an exception and (in the exact model) never
an infinity; and the spec's concrete example evaluates to the empty string
for every row and table. -/
theorem div_by_zero_absent :
    (∀ (l r : Value), pyFloat? r = some 0 → mulStep l ("/") r = Value.absent)
    ∧ (∀ (r : Row) (T : List Row), evaluate_row_expr ("10 / 0") r T = "") := by
  constructor
  · intro l r h
    cases hl : pyFloat? l <;> simp [mulStep, h, hl]
  · intro r T
    rfl

/-- Witness for the Claim C7 theorem. -/
theorem div_by_zero_absent_witness :
    mulStep (Value.float 10) ("/") (Value.float 0) = Value.absent
    ∧ evaluate_row_expr ("10 / 0") [] [] = "" :=
  ⟨div_by_zero_absent.1 (Value.float 10) (Value.float 0) rfl,
   div_by_zero_absent.2 [] []⟩

/-- Claim C10: the top level evaluates exactly one `parse_concat`
production and never inspects whether tokens remain: whenever tokenization
and evaluation succeed, the formatted leading value is returned no matter
where the cursor stopped; the two concrete examples evaluate the leading
expression and ignore the trailing tokens. -/
theorem trailing_tokens_ignored :
    (∀ (expr : String) (r : Row) (T : List Row) (ts : List Token) (v : Value) (st2 : EvSt),
        expr ≠ "" →
        _tokenize (normalizeExpr expr) = some ts →
        parse_concat (evalFuel ts) T (some r) ⟨ts, 0⟩ = some (v, st2) →
        evaluate_row_expr expr r T = _format v)
    ∧ (∀ (r : Row) (T : List Row), evaluate_row_expr ("1 < 2 < 3") r T = "True")
    ∧ (∀ (r : Row) (T : List Row), evaluate_row_expr ("1 2") r T = "1") := by
  refine ⟨?_, fun r T => rfl, fun r T => rfl⟩
  intro expr r T ts v st2 hne htok hparse
  simp [evaluate_row_expr, hne, tryEval, htok, hparse]

/-- Witness for the Claim C10 theorem: `1 2` stops after the leading `1`
(cursor at position 1 of 2) and still returns its formatted value. -/
theorem trailing_tokens_ignored_witness :
    evaluate_row_expr ("1 2") [] [] = _format (Value.float 1) :=
  trailing_tokens_ignored.1 ("1 2") [] [] [Token.NUM 1, Token.NUM 2] (Value.float 1)
    ⟨[Token.NUM 1, Token.NUM 2], 1⟩ (by decide) (by decide) (by decide)

theorem setAdd_nodup {acc : List String} (h : acc.Nodup) (s : String) :
    (setAdd acc s).Nodup := by
  by_cases hs : s ∈ acc
  · simpa [setAdd, hs] using h
  · simp [setAdd, hs, List.nodup_append, h]

theorem setAdd_toFinset (acc : List String) (s : String) :
    (setAdd acc s).toFinset = insert s acc.toFinset := by
  by_cases hs : s ∈ acc
  · simp [setAdd, hs]
  · simp [setAdd, hs, List.toFinset_append]
    ext x
    simp [or_comm]

theorem fold_setAdd_nodup (l : List String) :
    ∀ acc : List String, acc.Nodup → (l.foldl setAdd acc).Nodup := by
  induction l with
  | nil => intro acc h; exact h
  | cons s tl ih => intro acc h; exact ih (setAdd acc s) (setAdd_nodup h s)

theorem fold_setAdd_toFinset (l : List String) :
    ∀ acc : List String, (l.foldl setAdd acc).toFinset = acc.toFinset ∪ l.toFinset := by
  induction l with
  | nil => intro acc; simp
  | cons s tl ih =>
      intro acc
      rw [List.foldl_cons, ih (setAdd acc s), setAdd_toFinset]
      ext x
      simp

theorem fold_setAdd_length (strs : List String) :
    (strs.foldl setAdd []).length = strs.dedup.length := by
  have h1 := fold_setAdd_nodup strs [] (by simp)
  have h2 := fold_setAdd_toFinset strs []
  calc (strs.foldl setAdd []).length
      = (strs.foldl setAdd []).toFinset.card := (List.toFinset_card_of_nodup h1).symm
    _ = strs.toFinset.card := by rw [h2]; simp
    _ = strs.dedup.length := List.card_toFinset strs

theorem fold_filter_map_setAdd (results : List Value) :
    ∀ acc : List String,
      results.foldl (fun acc v =>
          if v ≠ Value.absent ∧ pyStr v ≠ "" then setAdd acc (pyStr v) else acc) acc
        = ((results.filter fun v =>
            decide (v ≠ Value.absent ∧ pyStr v ≠ "")).map pyStr).foldl setAdd acc := by
  induction results with
  | nil => intro acc; rfl
  | cons v tl ih =>
      intro acc
      by_cases h : v ≠ Value.absent ∧ pyStr v ≠ "" <;>
        simp [List.foldl_cons, List.filter_cons, h, ih]

/-- Claim C8: `unique(E)` evaluates to the number of distinct `str()`
renderings among the per-row results, excluding the absent ones and those
rendering as the empty string. -/
theorem unique_distinct_count (results : List Value) :
    aggCombine ("unique") results
      = some (Value.int (((results.filter fun v =>
          decide (v ≠ Value.absent ∧ pyStr v ≠ "")).map pyStr).dedup.length)) := by
  rw [show aggCombine ("unique") results
      = some (Value.int ((results.foldl (fun acc v =>
          if v ≠ Value.absent ∧ pyStr v ≠ "" then setAdd acc (pyStr v) else acc) []).length))
    from by simp [aggCombine]]
  rw [fold_filter_map_setAdd, fold_setAdd_length]

theorem foldl_min_spec {α : Type} [LinearOrder α] (x : α) (xs : List α) :
    xs.foldl (fun a b => if b < a then b else a) x ∈ x :: xs
    ∧ ∀ y ∈ x :: xs, xs.foldl (fun a b => if b < a then b else a) x ≤ y := by
  induction xs generalizing x with
  | nil => simp
  | cons b tl ih =>
      rw [List.foldl_cons]
      by_cases hbx : b < x
      · rw [if_pos hbx]
        obtain ⟨hmem, hle⟩ := ih b
        refine ⟨?_, ?_⟩
        · rcases List.mem_cons.mp hmem with h | h
          · rw [h]
            exact List.mem_cons_of_mem x (List.mem_cons_self b tl)
          · exact List.mem_cons_of_mem x (List.mem_cons_of_mem b h)
        · intro y hy
          rcases List.mem_cons.mp hy with h | hy2
          · rw [h]
            exact le_trans (hle b (List.mem_cons_self _ _)) hbx.le
          · rcases List.mem_cons.mp hy2 with h | hy3
            · rw [h]
              exact hle b (List.mem_cons_self _ _)
            · exact hle y (List.mem_cons_of_mem _ hy3)
      · rw [if_neg hbx]
        obtain ⟨hmem, hle⟩ := ih x
        refine ⟨?_, ?_⟩
        · rcases List.mem_cons.mp hmem with h | h
          · rw [h]
            exact List.mem_cons_self x _
          · exact List.mem_cons_of_mem x (List.mem_cons_of_mem b h)
        · intro y hy
          rcases List.mem_cons.mp hy with h | hy2
          · rw [h]
            exact hle x (List.mem_cons_self _ _)
          · rcases List.mem_cons.mp hy2 with h | hy3
            · rw [h]
              exact le_trans (hle x (List.mem_cons_self _ _)) (le_of_not_lt hbx)
            · exact hle y (List.mem_cons_of_mem _ hy3)

theorem foldl_max_spec {α : Type} [LinearOrder α] (x : α) (xs : List α) :
    xs.foldl (fun a b => if a < b then b else a) x ∈ x :: xs
    ∧ ∀ y ∈ x :: xs, y ≤ xs.foldl (fun a b => if a < b then b else a) x := by
  induction xs generalizing x with
  | nil => simp
  | cons b tl ih =>
      rw [List.foldl_cons]
      by_cases hbx : x < b
      · rw [if_pos hbx]
        obtain ⟨hmem, hle⟩ := ih b
        refine ⟨?_, ?_⟩
        · rcases List.mem_cons.mp hmem with h | h
          · rw [h]
            exact List.mem_cons_of_mem x (List.mem_cons_self b tl)
          · exact List.mem_cons_of_mem x (List.mem_cons_of_mem b h)
        · intro y hy
          rcases List.mem_cons.mp hy with h | hy2
          · rw [h]
            exact le_trans hbx.le (hle b (List.mem_cons_self _ _))
          · rcases List.mem_cons.mp hy2 with h | hy3
            · rw [h]
              exact hle b (List.mem_cons_self _ _)
            · exact hle y (List.mem_cons_of_mem _ hy3)
      · rw [if_neg hbx]
        obtain ⟨hmem, hle⟩ := ih x
        refine ⟨?_, ?_⟩
        · rcases List.mem_cons.mp hmem with h | h
          · rw [h]
            exact List.mem_cons_self x _
          · exact List.mem_cons_of_mem x (List.mem_cons_of_mem b h)
        · intro y hy
          rcases List.mem_cons.mp hy with h | hy2
          · rw [h]
            exact hle x (List.mem_cons_self _ _)
          · rcases List.mem_cons.mp hy2 with h | hy3
            · rw [h]
              exact le_trans (le_of_not_lt hbx) (hle x (List.mem_cons_self _ _))
            · exact hle y (List.mem_cons_of_mem _ hy3)

theorem foldlM_min_embed {α : Type} [LinearOrder α] (f : α → Rat ⊕ String)
    (hf : ∀ a b : α, pyCmpLt (f a) (f b) = some (decide (a < b))) :
    ∀ (xs : List α) (x : α),
      List.foldlM (fun acc b => (pyCmpLt b acc).map fun lt => if lt then b else acc)
        (f x) (xs.map f)
      = some (f (xs.foldl (fun a b => if b < a then b else a) x)) := by
  intro xs
  induction xs with
  | nil => intro x; rfl
  | cons b tl ih =>
      intro x
      simp only [List.map_cons, List.foldlM_cons, hf]
      by_cases hbx : b < x
      · simp [hbx, ih b, List.foldl_cons]
      · simp [hbx, ih x, List.foldl_cons]

theorem foldlM_max_embed {α : Type} [LinearOrder α] (f : α → Rat ⊕ String)
    (hf : ∀ a b : α, pyCmpLt (f a) (f b) = some (decide (a < b))) :
    ∀ (xs : List α) (x : α),
      List.foldlM (fun acc b => (pyCmpLt acc b).map fun lt => if lt then b else acc)
        (f x) (xs.map f)
      = some (f (xs.foldl (fun a b => if a < b then b else a) x)) := by
  intro xs
  induction xs with
  | nil => intro x; rfl
  | cons b tl ih =>
      intro x
      simp only [List.map_cons, List.foldlM_cons, hf]
      by_cases hbx : x < b
      · simp [hbx, ih b, List.foldl_cons]
      · simp [hbx, ih x, List.foldl_cons]

theorem minStep_same (acc b : Rat ⊕ String) (hb : b.isLeft = acc.isLeft) :
    ∃ c, ((pyCmpLt b acc).map fun lt => if lt then b else acc) = some c
      ∧ c.isLeft = acc.isLeft := by
  rcases acc with qa | sa <;> rcases b with qb | sb
  · refine ⟨if qb < qa then Sum.inl qb else Sum.inl qa, ?_, ?_⟩ <;>
      by_cases h : qb < qa <;> simp [pyCmpLt, h]
  · simp at hb
  · simp at hb
  · refine ⟨if sb < sa then Sum.inr sb else Sum.inr sa, ?_, ?_⟩ <;>
      by_cases h : sb < sa <;> simp [pyCmpLt, h]

theorem minStep_diff (acc b : Rat ⊕ String) (hb : b.isLeft ≠ acc.isLeft) :
    ((pyCmpLt b acc).map fun lt => if lt then b else acc) = Option.none := by
  rcases acc with qa | sa <;> rcases b with qb | sb <;> simp [pyCmpLt] at hb ⊢

theorem maxStep_same (acc b : Rat ⊕ String) (hb : b.isLeft = acc.isLeft) :
    ∃ c, ((pyCmpLt acc b).map fun lt => if lt then b else acc) = some c
      ∧ c.isLeft = acc.isLeft := by
  rcases acc with qa | sa <;> rcases b with qb | sb
  · refine ⟨if qa < qb then Sum.inl qb else Sum.inl qa, ?_, ?_⟩ <;>
      by_cases h : qa < qb <;> simp [pyCmpLt, h]
  · simp at hb
  · simp at hb
  · refine ⟨if sa < sb then Sum.inr sb else Sum.inr sa, ?_, ?_⟩ <;>
      by_cases h : sa < sb <;> simp [pyCmpLt, h]

theorem maxStep_diff (acc b : Rat ⊕ String) (hb : b.isLeft ≠ acc.isLeft) :
    ((pyCmpLt acc b).map fun lt => if lt then b else acc) = Option.none := by
  rcases acc with qa | sa <;> rcases b with qb | sb <;> simp [pyCmpLt] at hb ⊢

theorem foldlM_mixed_none (step : Rat ⊕ String → Rat ⊕ String → Option (Rat ⊕ String))
    (hsame : ∀ acc b, b.isLeft = acc.isLeft →
      ∃ c, step acc b = some c ∧ c.isLeft = acc.isLeft)
    (hdiff : ∀ acc b, b.isLeft ≠ acc.isLeft → step acc b = Option.none) :
    ∀ (xs : List (Rat ⊕ String)) (acc y : Rat ⊕ String),
      y ∈ xs → y.isLeft ≠ acc.isLeft →
      List.foldlM step acc xs = Option.none := by
  intro xs
  induction xs with
  | nil => intro acc y hy hk; simp at hy
  | cons b tl ih =>
      intro acc y hy hk
      rw [List.foldlM_cons]
      by_cases hb : b.isLeft = acc.isLeft
      · obtain ⟨c, hs, hck⟩ := hsame acc b hb
        rw [hs]
        rcases List.mem_cons.mp hy with h | hy2
        · exact absurd (by rw [h]; exact hb) hk
        · simpa using ih c y hy2 (by rw [hck]; exact hk)
      · rw [hdiff acc b hb]
        rfl

theorem pyExtreme_mixed (useMin : Bool) (l : List (Rat ⊕ String)) (q : Rat) (s : String)
    (hq : Sum.inl q ∈ l) (hs : Sum.inr s ∈ l) :
    pyExtreme useMin l = Option.none := by
  cases l with
  | nil => simp at hq
  | cons x xs =>
      cases useMin
      · -- max
        simp only [pyExtreme, Bool.false_eq_true, if_false]
        rcases x with qx | sx
        · have hs2 : Sum.inr s ∈ xs := by
            rcases List.mem_cons.mp hs with h | h
            · exact absurd h (by simp)
            · exact h
          exact foldlM_mixed_none _ maxStep_same maxStep_diff xs (Sum.inl qx)
            (Sum.inr s) hs2 (by simp)
        · have hq2 : Sum.inl q ∈ xs := by
            rcases List.mem_cons.mp hq with h | h
            · exact absurd h (by simp)
            · exact h
          exact foldlM_mixed_none _ maxStep_same maxStep_diff xs (Sum.inr sx)
            (Sum.inl q) hq2 (by simp)
      · -- min
        simp only [pyExtreme, if_true]
        rcases x with qx | sx
        · have hs2 : Sum.inr s ∈ xs := by
            rcases List.mem_cons.mp hs with h | h
            · exact absurd h (by simp)
            · exact h
          exact foldlM_mixed_none _ minStep_same minStep_diff xs (Sum.inl qx)
            (Sum.inr s) hs2 (by simp)
        · have hq2 : Sum.inl q ∈ xs := by
            rcases List.mem_cons.mp hq with h | h
            · exact absurd h (by simp)
            · exact h
          exact foldlM_mixed_none _ minStep_same minStep_diff xs (Sum.inr sx)
            (Sum.inl q) hq2 (by simp)

theorem aggCombine_min_eq (results : List Value) :
    aggCombine ("min") results
      = (if aggKeep results = [] then some Value.absent
         else
           match pyExtreme true (aggKeep results) with
           | some (Sum.inl q) => some (Value.float q)
           | some (Sum.inr s) => some (Value.str s)
           | Option.none => Option.none) := by
  simp [aggCombine]

theorem aggCombine_max_eq (results : List Value) :
    aggCombine ("max") results
      = (if aggKeep results = [] then some Value.absent
         else
           match pyExtreme false (aggKeep results) with
           | some (Sum.inl q) => some (Value.float q)
           | some (Sum.inr s) => some (Value.str s)
           | Option.none => Option.none) := by
  simp [aggCombine]

/-- Claim C5 counterexample: when the retained per-row values mix a
numerically coercible value with a non-coercible one, `min`/`max` do NOT
produce a minimum/maximum: the mixed float/str comparison raises
`TypeError` (modelled by `Option.none`), so the whole call falls back to
the expression string instead of any extremal value. -/
theorem minmax_mixed_fallback :
    aggCombine ("min") [Value.int 1, Value.str ("a")] = Option.none
    ∧ evaluate_row_expr ("min(\"v\")") [] [[("v", Value.int 1)], [("v", Value.str ("a"))]]
        = "min(\"v\")"
    ∧ evaluate_row_expr ("min(\"v\")") [] [[("v", Value.int 1)], [("v", Value.str ("a"))]]
        ≠ "1"
    ∧ evaluate_row_expr ("min(\"v\")") [] [[("v", Value.int 1)], [("v", Value.str ("a"))]]
        ≠ "a" := by
  refine ⟨by decide, by decide, by decide, by decide⟩

/-- Claim C5 (amended): `min(E)`/`max(E)` exclude rows whose value is
absent or renders empty and yield absent on an empty remainder; when the
retained values are ALL numerically coercible the result is the numeric
minimum/maximum, and when NONE are coercible it is the lexicographic
minimum/maximum of the `str()` renderings; but when the two kinds are
mixed the comparison raises and evaluation aborts (top-level fallback)
rather than producing a value. -/
theorem minmax_amended_spec :
    (∀ results : List Value, aggKeep results = [] →
        aggCombine ("min") results = some Value.absent
        ∧ aggCombine ("max") results = some Value.absent)
    ∧ (∀ (results : List Value) (q0 : Rat) (qs : List Rat),
        aggKeep results = (q0 :: qs).map Sum.inl →
        ∃ m : Rat, aggCombine ("min") results = some (Value.float m)
          ∧ m ∈ q0 :: qs ∧ ∀ q ∈ q0 :: qs, m ≤ q)
    ∧ (∀ (results : List Value) (q0 : Rat) (qs : List Rat),
        aggKeep results = (q0 :: qs).map Sum.inl →
        ∃ m : Rat, aggCombine ("max") results = some (Value.float m)
          ∧ m ∈ q0 :: qs ∧ ∀ q ∈ q0 :: qs, q ≤ m)
    ∧ (∀ (results : List Value) (s0 : String) (ss : List String),
        aggKeep results = (s0 :: ss).map Sum.inr →
        ∃ m : String, aggCombine ("min") results = some (Value.str m)
          ∧ m ∈ s0 :: ss ∧ ∀ t ∈ s0 :: ss, m ≤ t)
    ∧ (∀ (results : List Value) (s0 : String) (ss : List String),
        aggKeep results = (s0 :: ss).map Sum.inr →
        ∃ m : String, aggCombine ("max") results = some (Value.str m)
          ∧ m ∈ s0 :: ss ∧ ∀ t ∈ s0 :: ss, t ≤ m)
    ∧ (∀ (results : List Value) (q : Rat) (s : String),
        Sum.inl q ∈ aggKeep results → Sum.inr s ∈ aggKeep results →
        aggCombine ("min") results = Option.none
        ∧ aggCombine ("max") results = Option.none) := by
  refine ⟨?_, ?_, ?_, ?_, ?_, ?_⟩
  · intro results hk
    rw [aggCombine_min_eq, aggCombine_max_eq, if_pos hk, if_pos hk]
    exact ⟨rfl, rfl⟩
  · intro results q0 qs hk
    refine ⟨qs.foldl (fun a b => if b < a then b else a) q0, ?_,
      (foldl_min_spec q0 qs).1, (foldl_min_spec q0 qs).2⟩
    have hne : aggKeep results ≠ [] := by rw [hk]; simp
    rw [aggCombine_min_eq, if_neg hne, hk, List.map_cons]
    have he := foldlM_min_embed Sum.inl (fun a b => rfl) qs q0
    simp only [pyExtreme, if_true]
    rw [he]
  · intro results q0 qs hk
    refine ⟨qs.foldl (fun a b => if a < b then b else a) q0, ?_,
      (foldl_max_spec q0 qs).1, (foldl_max_spec q0 qs).2⟩
    have hne : aggKeep results ≠ [] := by rw [hk]; simp
    rw [aggCombine_max_eq, if_neg hne, hk, List.map_cons]
    have he := foldlM_max_embed Sum.inl (fun a b => rfl) qs q0
    simp only [pyExtreme, Bool.false_eq_true, if_false]
    rw [he]
  · intro results s0 ss hk
    obtain ⟨hmem, hle⟩ := foldl_min_spec s0 ss
    refine ⟨_, ?_, hmem, hle⟩
    have hne : aggKeep results ≠ [] := by rw [hk]; simp
    rw [aggCombine_min_eq, if_neg hne, hk, List.map_cons]
    have he := foldlM_min_embed Sum.inr
      (fun a b => by simp only [pyCmpLt, Option.some.injEq, decide_eq_decide]) ss s0
    simp only [pyExtreme, if_true]
    rw [he]
  · intro results s0 ss hk
    obtain ⟨hmem, hle⟩ := foldl_max_spec s0 ss
    refine ⟨_, ?_, hmem, hle⟩
    have hne : aggKeep results ≠ [] := by rw [hk]; simp
    rw [aggCombine_max_eq, if_neg hne, hk, List.map_cons]
    have he := foldlM_max_embed Sum.inr
      (fun a b => by simp only [pyCmpLt, Option.some.injEq, decide_eq_decide]) ss s0
    simp only [pyExtreme, Bool.false_eq_true, if_false]
    rw [he]
  · intro results q s hq hs
    have hne : aggKeep results ≠ [] := by
      intro h
      rw [h] at hq
      simp at hq
    constructor
    · rw [aggCombine_min_eq, if_neg hne, pyExtreme_mixed true (aggKeep results) q s hq hs]
    · rw [aggCombine_max_eq, if_neg hne, pyExtreme_mixed false (aggKeep results) q s hq hs]

/-- Witness for the amended Claim C5 theorem: an all-numeric table where
`min` returns the numeric minimum. -/
theorem minmax_amended_spec_witness :
    ∃ m : Rat, aggCombine ("min") [Value.float 2, Value.float 1] = some (Value.float m)
      ∧ m ∈ (2 : Rat) :: [1] ∧ ∀ q ∈ (2 : Rat) :: [1], m ≤ q :=
  minmax_amended_spec.2.1 [Value.float 2, Value.float 1] 2 [1] (by decide)

theorem isNumStart_isNumChar {c : Char} {cs : List Char}
    (h : isNumStart c cs = true) : isNumChar c = true := by
  simp only [isNumStart, Bool.or_eq_true, Bool.and_eq_true] at h
  rcases h with h | ⟨h, _⟩
  · simp [isNumChar, h]
  · simp [isNumChar, h]

theorem isIdentStart_isIdentChar {c : Char}
    (h : isIdentStart c = true) : isIdentChar c = true := by
  simp only [isIdentStart, Bool.or_eq_true] at h
  rcases h with h | h
  · simp [isIdentChar, Char.isAlphanum, h]
  · simp [isIdentChar, h]

/-- Claim C3 (amended): the tokenizer skips every character matching no
lexical rule (one character consumed, no token emitted, first conjunct);
it terminates on every input (it is a total function of its fuel, which
`_tokenize` supplies in excess); but it does NOT never-raise: whenever it
returns the exception marker, some numeric run it scanned (a nonempty
contiguous group of digits and dots) was rejected by the `float()`
conversion (second conjunct) — and such inputs exist
(see the counterexample). -/
theorem tokenize_skip_and_failure :
    (∀ (fuel : Nat) (c : Char) (cs : List Char),
      c.isWhitespace = false → c ≠ '\'' → c ≠ '"' →
      isNumStart c cs = false → twoOpOf c cs = Option.none →
      isOneOp c = false → c ≠ '(' → c ≠ ')' → c ≠ ',' →
      isIdentStart c = false →
      tokLoop (fuel + 1) (c :: cs) = tokLoop fuel cs)
    ∧ (∀ (fuel : Nat) (cs : List Char), tokLoop fuel cs = Option.none →
        cs.length < fuel →
        ∃ run : List Char, run ≠ [] ∧ run.all isNumChar = true
          ∧ parsePyFloat (String.mk run) = Option.none ∧ run.Sublist cs) := by
  constructor
  · intro fuel c cs h1 h2 h3 h4 h5 h6 h7 h8 h9 h10
    simp [tokLoop, h1, h2, h3, h4, h5, h6, h7, h8, h9, h10]
  · intro fuel
    induction fuel with
    | zero =>
        intro cs h hlen
        exact absurd hlen (Nat.not_lt_zero _)
    | succ f ih =>
        intro cs h hlen
        cases cs with
        | nil => simp [tokLoop] at h
        | cons c cs2 =>
            have hlen2 : cs2.length < f := by
              simpa using Nat.lt_of_succ_lt_succ hlen
            have key : ∀ rest : List Char, rest.Sublist cs2 →
                tokLoop f rest = Option.none →
                ∃ run : List Char, run ≠ [] ∧ run.all isNumChar = true
                  ∧ parsePyFloat (String.mk run) = Option.none
                  ∧ run.Sublist (c :: cs2) := by
              intro rest hsub hnone
              obtain ⟨run, r1, r2, r3, r4⟩ := ih rest hnone
                (lt_of_le_of_lt hsub.length_le hlen2)
              exact ⟨run, r1, r2, r3, (r4.trans hsub).cons c⟩
            by_cases hws : c.isWhitespace
            · refine key cs2 (List.Sublist.refl cs2) ?_
              simpa [tokLoop, hws] using h
            · by_cases hq1 : c = '\''
              · refine key ((cs2.dropWhile fun x => x ≠ '\'').drop 1)
                  ((List.drop_sublist _ _).trans (List.dropWhile_sublist _)) ?_
                simpa [tokLoop, hws, hq1] using h
              · by_cases hq2 : c = '"'
                · refine key ((cs2.dropWhile fun x => x ≠ '"').drop 1)
                    ((List.drop_sublist _ _).trans (List.dropWhile_sublist _)) ?_
                  simpa [tokLoop, hws, hq1, hq2] using h
                · by_cases hnum : isNumStart c cs2
                  · have hc : isNumChar c = true := isNumStart_isNumChar hnum
                    cases hp : parsePyFloat (String.mk ((c :: cs2).takeWhile isNumChar)) with
                    | none =>
                        refine ⟨(c :: cs2).takeWhile isNumChar, ?_, List.all_takeWhile,
                          hp, List.takeWhile_sublist _⟩
                        simp [List.takeWhile_cons, hc]
                    | some v =>
                        have hrest : (c :: cs2).dropWhile isNumChar
                            = cs2.dropWhile isNumChar := by
                          simp [List.dropWhile_cons, hc]
                        refine key (cs2.dropWhile isNumChar)
                          (List.dropWhile_sublist _) ?_
                        rw [← hrest]
                        simpa [tokLoop, hws, hq1, hq2, hnum, hp] using h
                  · cases hto : twoOpOf c cs2 with
                    | some op =>
                        refine key (cs2.drop 1) (List.drop_sublist _ _) ?_
                        simpa [tokLoop, hws, hq1, hq2, hnum, hto] using h
                    | none =>
                        by_cases hone : isOneOp c
                        · refine key cs2 (List.Sublist.refl cs2) ?_
                          simpa [tokLoop, hws, hq1, hq2, hnum, hto, hone] using h
                        · by_cases hlp : c = '('
                          · subst hlp
                            refine key cs2 (List.Sublist.refl cs2) ?_
                            simpa [tokLoop, hws, hq1, hq2, hnum, hto, hone] using h
                          · by_cases hrp : c = ')'
                            · subst hrp
                              refine key cs2 (List.Sublist.refl cs2) ?_
                              simpa [tokLoop, hws, hq1, hq2, hnum, hto, hone, hlp]
                                using h
                            · by_cases hcm : c = ','
                              · subst hcm
                                refine key cs2 (List.Sublist.refl cs2) ?_
                                simpa [tokLoop, hws, hq1, hq2, hnum, hto, hone, hlp,
                                  hrp] using h
                              · by_cases hid : isIdentStart c
                                · have hc : isIdentChar c = true :=
                                    isIdentStart_isIdentChar hid
                                  have hrest : (c :: cs2).dropWhile isIdentChar
                                      = cs2.dropWhile isIdentChar := by
                                    simp [List.dropWhile_cons, hc]
                                  refine key (cs2.dropWhile isIdentChar)
                                    (List.dropWhile_sublist _) ?_
                                  rw [← hrest]
                                  simpa [tokLoop, hws, hq1, hq2, hnum, hto, hone,
                                    hlp, hrp, hcm, hid] using h
                                · refine key cs2 (List.Sublist.refl cs2) ?_
                                  simpa [tokLoop, hws, hq1, hq2, hnum, hto, hone,
                                    hlp, hrp, hcm, hid] using h

/-- Witness for the amended Claim C3 theorem: the skip step on an
unrecognized character, and a failing numeric run extracted from the
counterexample input. -/
theorem tokenize_skip_and_failure_witness :
    tokLoop 2 ['#'] = tokLoop 1 []
    ∧ ∃ run : List Char, run ≠ [] ∧ run.all isNumChar = true
        ∧ parsePyFloat (String.mk run) = Option.none
        ∧ run.Sublist ("1.2.3".toList) :=
  ⟨tokenize_skip_and_failure.1 1 '#' [] (by decide) (by decide) (by decide) (by decide)
      (by decide) (by decide) (by decide) (by decide) (by decide) (by decide),
   tokenize_skip_and_failure.2 6 ("1.2.3".toList) (by decide) (by decide)⟩

end StatusExpression
